import Mathlib

/-!
# A verification model of CppEasySerDes

This file is a shallow embedding, in Lean, of the serialisation library found
under `src/esd/` (Core.h, JsonHelpers.h, BuiltInTypeSupport.h, StdLibSupport.h,
ClassHelper.h, Context.h), together with theorems settling the specified
properties of the library.

Modelling conventions:
* `nlohmann::json` trees are modelled by the inductive `Json` below.  The
  backing types are `number_integer_t = int64_t` (modelled as `Int`, with
  range side conditions stated where they matter), `number_unsigned_t =
  uint64_t` (modelled as `Nat`) and `number_float_t = double` (modelled as
  `Rat`; no claim depends on floating point arithmetic, only on the *kind* of
  a float node).
* C++ code that can throw (`json::at` on a missing key) is embedded with
  `Except String`.
* Machine-integer conversions (`static_cast`, `get<T>()`) are modelled with
  explicit two's-complement wrapping on `Int`/`Nat`.
-/

namespace EsdModel

/-- The JSON value kinds, mirroring `nlohmann::json::value_t`. -/
inductive JsonKind where
  | null
  | boolean
  | intNum
  | uintNum
  | floatNum
  | str
  | arr
  | obj
deriving DecidableEq

/-- The JSON tree (`nlohmann::json`).  Objects are key/value lists looked up
by key (nlohmann keeps keys unique; insertion order is irrelevant for
lookup). -/
inductive Json where
  | null : Json
  | boolean : Bool → Json
  | intNum : Int → Json
  | uintNum : Nat → Json
  | floatNum : Rat → Json
  | str : String → Json
  | arr : List Json → Json
  | obj : List (String × Json) → Json

/-- The node kind, `json::type()`. -/
def Json.kind : Json → JsonKind
  | .null => .null
  | .boolean _ => .boolean
  | .intNum _ => .intNum
  | .uintNum _ => .uintNum
  | .floatNum _ => .floatNum
  | .str _ => .str
  | .arr _ => .arr
  | .obj _ => .obj

/-- Predicate `json::is_string()`. -/
def Json.isStr : Json → Bool
  | .str _ => true
  | _ => false

/-- Predicate `json::is_object()`. -/
def Json.isObj : Json → Bool
  | .obj _ => true
  | _ => false

/-- Comparison of a json tree against a json string node
(`serialised == someStringConstant` in the C++). -/
def Json.eqStr : Json → String → Bool
  | .str s, t => s == t
  | _, _ => false

/-- Key lookup in an object node: `contains` + `at`/`operator[]` combined.
Returns `none` when the tree is not an object or the key is absent. -/
def Json.lookup : Json → String → Option Json
  | .obj kvs, k => (kvs.find? (fun kv => kv.1 == k)).map (fun kv => kv.2)
  | _, _ => none

/-- The entry list of an object node (`json::items()`), empty otherwise. -/
def Json.entries : Json → List (String × Json)
  | .obj kvs => kvs
  | _ => []

/-- Size `json::size()` of an object node. -/
def Json.objSize : Json → Nat
  | .obj kvs => kvs.length
  | _ => 0

mutual
/-- Rendering `json::dump()`: a textual rendering of a tree, used by the shared-pointer
cache as a content fingerprint (`serialised.at(wrappedTypeKey).dump()`).
Only the property "equal trees dump to equal strings" (i.e. that this is a
function) is used by any theorem below, so the precise text format is not
load-bearing. -/
def Json.dump : Json → String
  | .null => "null"
  | .boolean b => if b then "true" else "false"
  | .intNum i => toString i
  | .uintNum u => toString u
  | .floatNum q => toString q
  | .str s => "\"" ++ s ++ "\""
  | .arr xs => "[" ++ Json.dumpList xs ++ "]"
  | .obj kvs => "\x7b" ++ Json.dumpObj kvs ++ "\x7d"

/-- Renders the elements of an array node. -/
def Json.dumpList : List Json → String
  | [] => ""
  | [x] => Json.dump x
  | x :: xs => Json.dump x ++ "," ++ Json.dumpList xs

/-- Renders the entries of an object node. -/
def Json.dumpObj : List (String × Json) → String
  | [] => ""
  | [kv] => "\"" ++ kv.1 ++ "\":" ++ Json.dump kv.2
  | kv :: kvs => "\"" ++ kv.1 ++ "\":" ++ Json.dump kv.2 ++ "," ++ Json.dumpObj kvs
end

/-!
## JsonHelpers.h
-/

/-- Model of `esd::MatchType` (JsonHelpers.h, lines 20-25): allows parsed values of
more constrained numeric kinds to be treated as less constrained kinds. -/
def MatchType (target toMatch : JsonKind) : Bool :=
  target == toMatch
    || (target == .floatNum && (toMatch == .intNum || toMatch == .uintNum))
    || (target == .intNum && toMatch == .uintNum)

/-!
## Machine integer conversions

`static_cast` / `json::get<T>()` between integral types, modelled with
explicit wrap-around.  `wIntCast w x` is conversion of the mathematical
integer `x` to a `w`-bit two's-complement signed type, re-read as a
mathematical integer; `wUintCast w x` is conversion to a `w`-bit unsigned
type.
-/

/-- Conversion to a `w`-bit signed integer (two's complement wrap). -/
def wIntCast (w : Nat) (x : Int) : Int :=
  (x + 2 ^ (w - 1)) % 2 ^ w - 2 ^ (w - 1)

/-- Conversion to a `w`-bit unsigned integer (wrap modulo `2 ^ w`). -/
def wUintCast (w : Nat) (x : Int) : Nat :=
  (x % 2 ^ w).toNat

/-!
## BuiltInTypeSupport.h: integral codecs

`Serialiser<T>` for `std::signed_integral T` with
`sizeof(T) <= sizeof(number_integer_t)` (lines 56-76) and for
`std::unsigned_integral T` with `sizeof(T) <= sizeof(number_unsigned_t)`
(lines 81-101).  The width `w` (in bits) stands for the template parameter
`T`; `w = 64` corresponds to the internal type itself.
-/

/-- Read `serialised.get<number_integer_t>()`: reads the stored number as an
`int64_t`.  A `number_unsigned` node stores a `uint64_t`, which the
conversion to `int64_t` wraps.  (Only called on nodes whose kind passed
`MatchType`, but totalised with a dummy value elsewhere.) -/
def getInternalSigned : Json → Int
  | .intNum i => i
  | .uintNum u => wIntCast 64 (Int.ofNat u)
  | _ => 0

/-- Read `serialised.get<number_unsigned_t>()`: reads the stored number as a
`uint64_t`. -/
def getInternalUnsigned : Json → Nat
  | .uintNum u => u
  | _ => 0

/-- Model of `Serialiser<T>::Deserialise` for a signed integral `T` of width
`w`: `serialised.get<T>()`, i.e. the stored number converted to `T`. -/
def signedIntDeserialise (w : Nat) : Json → Int
  | .intNum i => wIntCast w i
  | .uintNum u => wIntCast w (Int.ofNat u)
  | _ => 0

/-- Model of `Serialiser<T>::Deserialise` for an unsigned integral `T` of
width `w`: `serialised.get<T>()`. -/
def unsignedIntDeserialise (w : Nat) : Json → Nat
  | .uintNum u => u % 2 ^ w
  | _ => 0

/-- Model of `Serialiser<T>::Validate` for signed integral `T` (BuiltInTypeSupport.h
lines 60-64): the node's kind must match `number_integer` under `MatchType`,
and `serialised.get<number_integer_t>() ==
static_cast<number_integer_t>(Deserialise(serialised))` must hold (the
cast back from `T` to `int64_t` is value preserving for `w ≤ 64`). -/
def signedIntValidate (w : Nat) (t : Json) : Bool :=
  MatchType .intNum t.kind && (getInternalSigned t == signedIntDeserialise w t)

/-- Model of `Serialiser<T>::Validate` for unsigned integral `T` (BuiltInTypeSupport.h
lines 85-89). -/
def unsignedIntValidate (w : Nat) (t : Json) : Bool :=
  MatchType .uintNum t.kind
    && (getInternalUnsigned t == unsignedIntDeserialise w t)

/-- Model of `Serialiser<T>::Serialise` for a signed integral value: stored as a
native `number_integer` node. -/
def signedIntSerialise (v : Int) : Json := .intNum v

/-- Model of `Serialiser<T>::Serialise` for an unsigned integral value: stored as a
native `number_unsigned` node. -/
def unsignedIntSerialise (v : Nat) : Json := .uintNum v

/-!
## Core.h: the codec interface and the checked entry points

A codec is the `Validate` / `Serialise` / `Deserialise` triple of a
`Serialiser<T>` specialisation (Core.h lines 45-57).
-/

/-- One `Serialiser<T>` specialisation, for codecs that cannot throw. -/
structure Codec (V : Type) where
  validate : Json → Bool
  serialise : V → Json
  deserialise : Json → V

/-- Model of `esd::Deserialise` (Core.h lines 104-112): validate, then deserialise,
else `std::nullopt`. -/
def esdDeserialise (c : Codec V) (t : Json) : Option V :=
  if c.validate t then some (c.deserialise t) else none

/-- Model of `esd::Deserialise` for a `Serialiser<T>` whose `Deserialise` can throw
(modelled with `Except`): a thrown exception propagates out of the checked
entry point. -/
def esdDeserialiseChecked (validate : Json → Bool)
    (deserialise : Json → Except String V) (t : Json) :
    Except String (Option V) :=
  if validate t then (deserialise t).map some else .ok none

/-- Read `json::get<std::string>()` on a string node. -/
def Json.getStr : Json → String
  | .str s => s
  | _ => ""

/-!
## StdLibSupport.h: `Serialiser<std::string>` (lines 82-99)
-/

/-- The `std::string` codec: stored as a native string node. -/
def stringCodec : Codec String where
  validate := Json.isStr
  serialise := .str
  deserialise := Json.getStr

/-!
## StdLibSupport.h: `Serialiser<std::byte>` (lines 22-49)
-/

/-- Model of `std::string::starts_with`. -/
def strStartsWith (s p : String) : Bool :=
  s.data.take p.data.length == p.data

/-- Model of `Serialiser<std::byte>::Validate`: a string, of size 4, starting
with `"0x"` (the two trailing characters are not inspected). -/
def byteValidate (t : Json) : Bool :=
  t.isStr && t.getStr.length == 4 && strStartsWith t.getStr "0x"

/-- Model of `Serialiser<std::byte>::Serialise`: streams the byte as `"0x"` followed
by exactly two lowercase hex digits (`std::hex`, `setfill('0')`,
`setw(2)`). -/
def byteSerialise (b : Fin 256) : Json :=
  .str ("0x" ++ String.mk [Nat.digitChar (b.val / 16), Nat.digitChar (b.val % 16)])

/-- Value of one hex digit character, `none` for a non-hex-digit. -/
def hexDigitVal (c : Char) : Option Nat :=
  if '0' ≤ c ∧ c ≤ '9' then some (c.toNat - 48)
  else if 'a' ≤ c ∧ c ≤ 'f' then some (c.toNat - 87)
  else if 'A' ≤ c ∧ c ≤ 'F' then some (c.toNat - 55)
  else none

/-- Stream extraction of a hex number: consumes hex digits until the first
non-digit (the extracted value on failure is 0, as for C++11 streams). -/
def parseHexChars : List Char → Nat → Nat
  | [], acc => acc
  | c :: cs, acc =>
    match hexDigitVal c with
    | some d => parseHexChars cs (16 * acc + d)
    | none => acc

/-- Model of `Serialiser<std::byte>::Deserialise`: `istringstream >> std::hex` (which
accepts an optional `0x` prefix), then `value & 0xFF`. -/
def byteDeserialise (t : Json) : Nat :=
  match (t.getStr).data with
  | '0' :: 'x' :: rest => parseHexChars rest 0 % 256
  | other => parseHexChars other 0 % 256

/-!
## StdLibSupport.h: `Serialiser<std::optional<T>>` (lines 214-250)

The inner codec is a parameter; the absent sentinel is the json *string*
node `"std::nullopt"`.
-/

/-- The sentinel `Serialiser<std::optional<T>>::nullString`. -/
def optNullString : String := "std::nullopt"

/-- Model of `Serialiser<std::optional<T>>::Validate`: the sentinel, or a valid inner
value. -/
def optionValidate (c : Codec V) (t : Json) : Bool :=
  t.eqStr optNullString || c.validate t

/-- Model of `Serialiser<std::optional<T>>::Serialise`. -/
def optionSerialise (c : Codec V) : Option V → Json
  | none => .str optNullString
  | some v => c.serialise v

/-- Model of `Serialiser<std::optional<T>>::Deserialise`: anything that is not the
sentinel is deserialised with the inner codec (the `DeserialiseInPlace` /
copy-construction split in the source produces the same value either way). -/
def optionDeserialise (c : Codec V) (t : Json) : Option V :=
  if t.eqStr optNullString then none else some (c.deserialise t)

/-- The assembled `Serialiser<std::optional<T>>` codec. -/
def optionCodec (c : Codec V) : Codec (Option V) where
  validate := optionValidate c
  serialise := optionSerialise c
  deserialise := optionDeserialise c

/-!
## StdLibSupport.h: `Serialiser<std::variant<Ts...>>` (lines 252-305)

One alternative per template argument `Ts`; its key is
`detail::TypeNameStr<Ts>()`.  The per-alternative inner codecs are kept
abstract: an alternative is a key plus the inner `Validate`.  `Deserialise`
is modelled as returning which alternative index ends up held together with
the sub-tree handed to that alternative's inner `Deserialise` (`(0, none)`
is the default-constructed variant that `ret` starts out as).
-/

/-- The absent marker `Serialiser<std::variant<Ts...>>::nullString`. -/
def varNullString : String := "nullVariant"

/-- One alternative (`Ts`) of a variant: its type-name key and inner
validator. -/
structure VariantAlt where
  key : String
  validate : Json → Bool

/-- Model of `Serialiser<std::variant<Ts...>>::Validate`: an object of exactly
`sizeof...(Ts)` entries, and for every alternative the key is present and
holds either the absent marker or a valid inner value.  (No exclusivity
check appears in the source.) -/
def variantValidate (alts : List VariantAlt) (t : Json) : Bool :=
  (t.kind == .obj) && (t.objSize == alts.length)
    && alts.all (fun a =>
        match t.lookup a.key with
        | some v => v.eqStr varNullString || a.validate v
        | none => false)

/-- Model of `Serialiser<std::variant<Ts...>>::Serialise`: every alternative's key is
written, the held alternative (index `i`, already-encoded payload) gets the
encoded value and every other key gets the absent marker. -/
def variantSerialise (alts : List VariantAlt) (i : Nat) (payload : Json) : Json :=
  .obj (alts.enum.map (fun p => (p.2.key, if p.1 == i then payload else .str varNullString)))

/-- Model of `Serialiser<std::variant<Ts...>>::Deserialise`: `ret` starts as the
default-constructed variant (alternative 0, no decoded payload); each
alternative in declaration order overwrites `ret` when its slot is not the
absent marker, so the *last* present slot wins. -/
def variantDeserialise (alts : List VariantAlt) (t : Json) : Nat × Option Json :=
  alts.enum.foldl
    (fun acc p =>
      match t.lookup p.2.key with
      | some v => if v.eqStr varNullString then acc else (p.1, some v)
      | none => acc)
    (0, none)

/-!
## ClassHelper.h: `internal::Implementation<T, ConstructionArgs...>`

The per-type configuration built by `SetConstruction` /
`AddInitialisationCall` / `CreateParameter` / `RegisterVariable`, and the
`Validate` / `Serialise` / `Deserialise` / `DeserialiseInPlace` algorithms
running over it (lines 589-938).

The stored closures are kept as functions: a `Variable`'s `validator_` is a
function of the serialised sub-value, its `parser_` writes into the live
instance; `constructor_`, the initialisation calls and the joint validators
are functions of the whole serialised object.  `json::at` on a missing key
throws `json::out_of_range`, hence `Except String`.
-/

/-- The `Variable` record of `internal::Implementation` (validator and
parser; the writer is only used by `Serialise`, which no claim below
touches). -/
structure VariableEntry (T : Type) where
  validate : Json → Bool
  parser : Json → T → T

/-- The state of one `internal::Implementation<T, ConstructionArgs...>`
after configuration.  `variables` models the `std::map` `variables_` with
its entries listed in iteration (key) order. -/
structure ClassConfig (T : Type) where
  constructionVariables : List String
  construct : Json → Except String T
  initialisers : List (Json → T → Except String T)
  vars : List (String × VariableEntry T)
  jointValidators : List (Json → Bool)
  postDeserialise : Json → T → T

/-- Lookup modelling `variables_.count(key) == 1` plus `variables_.at(key)`. -/
def lookupVar (l : List (String × VariableEntry T)) (k : String) :
    Option (VariableEntry T) :=
  (l.find? (fun kv => kv.1 == k)).map (fun kv => kv.2)

/-- Model of `internal::Implementation::Validate` (lines 623-645): the tree must be
an object; every key *present in the tree* must name a registered variable
whose validator accepts the sub-value (an unknown key or failing validator
invalidates the whole object); then every joint validator must accept.
Keys that are registered but absent from the tree are not required. -/
def classValidate (cfg : ClassConfig T) (t : Json) : Bool :=
  match t with
  | .obj kvs =>
      (kvs.all fun kv =>
        match lookupVar cfg.vars kv.1 with
        | some v => v.validate kv.2
        | none => false)
      && cfg.jointValidators.all (fun jv => jv t)
  | _ => false

/-- The tail of `Deserialise` / `DeserialiseInPlace` shared by both
(lines 660-666 and 683-689): run every initialisation call, then parse
`toDeserialise.at(key)` for every registered variable (throwing when the
key is absent), then the post-deserialise action. -/
def applyInitAndParse (cfg : ClassConfig T) (t : Json) (c : T) :
    Except String T := do
  let c ← cfg.initialisers.foldlM (fun acc ini => ini t acc) c
  let c ← cfg.vars.foldlM
      (fun acc kv =>
        match t.lookup kv.1 with
        | some sub => Except.ok (kv.2.parser sub acc)
        | none => Except.error ("json out_of_range at key " ++ kv.1))
      c
  .ok (cfg.postDeserialise t c)

/-- Model of `internal::Implementation::Deserialise` (lines 657-668). -/
def classDeserialise (cfg : ClassConfig T) (t : Json) : Except String T :=
  cfg.construct t >>= applyInitAndParse cfg t

/-- Extraction `toDeserialise.at(constructionVariables_.at(Indexes))...`: the sub-trees
handed to the factory, throwing on a missing key. -/
def constructionArgs (cfg : ClassConfig T) (t : Json) :
    Except String (List Json) :=
  cfg.constructionVariables.mapM (fun k =>
    match t.lookup k with
    | some sub => Except.ok sub
    | none => Except.error ("json out_of_range at key " ++ k))

/-- Model of `internal::Implementation::DeserialiseInPlace` (lines 670-693), with the
number of `std::invoke(factory, ...)` evaluations recorded as the second
component.  The factory returns a box holding a `T`, or null; in the model
the decoding of the factory arguments is folded into the factory itself
(it receives the raw sub-trees).  Note the source invokes the factory once,
and then — whenever the result it immediately discards was non-null — a
second time. -/
def deserialiseInPlace (cfg : ClassConfig T) (factory : List Json → Option T)
    (t : Json) : Except String (Option T) × Nat :=
  match constructionArgs cfg t with
  | .error e => (.error e, 1)
  | .ok args =>
    match factory args with
    | none => (.ok none, 1)
    | some _ =>
      -- `retVal != nullptr`: the source re-invokes the factory, discarding
      -- the first instance, and completes deserialisation on the second.
      match factory args with
      | none => (.ok none, 2)
      | some c =>
        match applyInitAndParse cfg t c with
        | .ok c2 => (.ok (some c2), 2)
        | .error e => (.error e, 2)

/-!
## ClassHelper.h: key generation and registration (lines 856-937)

`GenerateUniqueKey` and the shared front half of
`RegisterVariableAsParameter` / `RegisterVariableInternal`, which decide the
string key a new parameter or variable is inserted under.  Only the key set
matters for the uniqueness claim, so the state is modelled as the list of
registered keys.
-/

/-- A model of `std::to_string` on an unsigned value: the decimal digit
string. -/
def natRepr (n : Nat) : String :=
  if n = 0 then "0"
  else String.mk (((Nat.digits 10 n).map Nat.digitChar).reverse)

/-- Model of `internal::Implementation::GenerateUniqueKey` (lines 856-870): try
`prefix + "0"`, `prefix + "1"`, ... and return the first candidate that is
not yet a registered key.  The source loops unboundedly; among the first
`keys.length + 1` candidates one is always free (they are pairwise
distinct), which `genUniqueKey_mem_and_fresh` below proves, so the final
fallback arm is unreachable. -/
def genUniqueKey (keys : List String) (pre : String) : String :=
  match (List.range (keys.length + 1)).find?
      (fun i => !(keys.contains (pre ++ natRepr i))) with
  | some i => pre ++ natRepr i
  | none => pre ++ natRepr (keys.length + 1)

/-- The label-to-key logic shared by `RegisterVariableAsParameter`
(lines 874-883) and `RegisterVariableInternal` (lines 910-919): an omitted
label becomes a generated `"param<n>"` key; a label colliding with an
existing key is deduplicated by `GenerateUniqueKey(label)`; otherwise the
label itself is the key. -/
def registerKey (keys : List String) (label : Option String) : String :=
  match label with
  | none => genUniqueKey keys "param"
  | some l => if keys.contains l then genUniqueKey keys l else l

/-- One parameter-creation or variable-registration call: the new key is
inserted into `variables_`. -/
def registerStep (keys : List String) (label : Option String) : List String :=
  keys ++ [registerKey keys label]

/-- A whole configuration sequence: every call's (optional) label in order,
starting from the empty `variables_` map of a fresh `Implementation`. -/
def registerAll (ops : List (Option String)) : List String :=
  ops.foldl registerStep []

/-!
## StdLibSupport.h: `Serialiser<std::shared_ptr<T>>` (lines 385-458) and
## Context.h (lines 53-77)

Decoded shared instances are identified by allocation identities (`Nat`);
the allocator state `nextId` models the memory allocator, so identities are
fresh across the whole run, while the cache lives in one `esd::Context` and
is dropped with it.  The two-level cache
`map<uintptr_t, map<string, weak_ptr<T>>>` is flattened to an association
list keyed by the pair (pointer value, `wrappedType` dump); lookup
semantics are identical.  The claims' scenarios hold every decoded handle
alive for the duration of the session, so `weak_ptr::lock` succeeds on
every hit and expiry is not modelled.
-/

/-- Model of `Serialiser<std::shared_ptr<T>>::Serialise`: an object holding the
encode-time pointer value under `"ptr"` and the encoded pointee (delegated
to the `unique_ptr` codec) under `"wrappedType"`. -/
def sharedSerialise (addr : Nat) (wrapped : Json) : Json :=
  .obj [("ptr", .uintNum addr), ("wrappedType", wrapped)]

/-- The per-`Context` shared-pointer cache plus the allocator: `cache`
models `context.GetCache<CacheType>("shared_ptr")`, `nextId` the next fresh
object identity. -/
structure DecodeState where
  nextId : Nat
  cache : List ((Nat × String) × Nat)

/-- Model of `Serialiser<std::shared_ptr<T>>::Deserialise` (lines 411-421 with
`CheckCache` / `AddToCache`, lines 434-457): look up (pointer value,
`wrappedType.dump()`); on a hit return the cached instance, otherwise
decode a fresh instance through the `unique_ptr` path and cache it. -/
def sharedDeserialise (st : DecodeState) (t : Json) : Nat × DecodeState :=
  let ptrVal := match t.lookup "ptr" with
    | some (.uintNum u) => u
    | _ => 0
  let fingerprint := (match t.lookup "wrappedType" with
    | some w => w
    | none => .null).dump
  match st.cache.find? (fun e => e.1.1 == ptrVal && e.1.2 == fingerprint) with
  | some e => (e.2, st)
  | none =>
      (st.nextId,
       { nextId := st.nextId + 1,
         cache := ((ptrVal, fingerprint), st.nextId) :: st.cache })


/-!
## Bundled codecs and concrete fixtures

Bundled `Codec` values for the primitive serialisers above, plus the
concrete instantiations used to exercise the theorems (a width-32 signed
integer stands for `int32_t`; `"int"` / `"std::string"` stand for the
`detail::TypeNameStr` keys of a `std::variant<int32_t, std::string>`).
-/

/-- The signed integral codec of width `w`, bundled. -/
def signedIntCodec (w : Nat) : Codec Int where
  validate := signedIntValidate w
  serialise := signedIntSerialise
  deserialise := signedIntDeserialise w

/-- The `std::byte` codec, bundled; the value type is a byte (`Fin 256`),
and the final conversion models `std::bit_cast<std::byte>` of the masked
`uint8_t`. -/
def byteCodec : Codec (Fin 256) where
  validate := byteValidate
  serialise := byteSerialise
  deserialise := fun t => ⟨byteDeserialise t % 256, by omega⟩

/-- Lowercase hex digit characters, the output alphabet of
`Serialiser<std::byte>::Serialise`. -/
def isLowerHexDigit (c : Char) : Bool :=
  (('0' ≤ c) && (c ≤ '9')) || (('a' ≤ c) && (c ≤ 'f'))

/-- The registered-variable entry for an `int32_t` member
(`RegisterVariable(&T::member)`): default validation by the `int32_t`
codec, parser writing the decoded value into the instance. -/
def int32Var : VariableEntry Int where
  validate := signedIntValidate 32
  parser := fun sub _ => signedIntDeserialise 32 sub

/-- A `ClassHelper`-configured default-constructible type with a single
registered `int32_t` variable under the (auto-generated) key `"param0"`
and no construction parameters: the smallest aggregate configuration. -/
def classCfgC1 : ClassConfig Int where
  constructionVariables := []
  construct := fun _ => .ok 0
  initialisers := []
  vars := [("param0", int32Var)]
  jointValidators := []
  postDeserialise := fun _ c => c

/-- A `ClassHelper` configuration with no registered values at all (a
default-constructible type whose state needs nothing): every tree that is
an empty object validates, and `DeserialiseInPlace` has no keys to read. -/
def classCfgEmpty : ClassConfig Int where
  constructionVariables := []
  construct := fun _ => .ok 0
  initialisers := []
  vars := []
  jointValidators := []
  postDeserialise := fun _ c => c

/-- The alternatives of `std::variant<int32_t, std::string>`: type-name
keys with the inner validators of the corresponding codecs. -/
def alts2ex : List VariantAlt :=
  [⟨"int", signedIntValidate 32⟩, ⟨"std::string", Json.isStr⟩]


/-- An encoded `std::variant<int32_t, std::string>` tree in which *zero*
alternatives are present (every slot holds the absent marker). -/
def treeC4zero : Json :=
  .obj [("int", .str varNullString), ("std::string", .str varNullString)]

/-- An encoded `std::variant<int32_t, std::string>` tree in which *both*
alternatives hold present, individually valid values. -/
def treeC4both : Json :=
  .obj [("int", .intNum 1), ("std::string", .str "a")]

/-!
## Helper lemmas: two's-complement wrapping
-/

/-- For a positive width, the modulus is twice the half-range. -/
lemma two_pow_split {w : Nat} (hw : 1 ≤ w) : (2 : Int) ^ w = 2 * 2 ^ (w - 1) := by
  conv_lhs => rw [show w = (w - 1) + 1 by omega]
  rw [pow_succ]
  ring

/-- Conversion of `x` to a `w`-bit signed integer is the identity exactly
when `x` is representable in `w` bits. -/
lemma wIntCast_eq_self_iff {w : Nat} (hw : 1 ≤ w) (x : Int) :
    wIntCast w x = x ↔ -(2 ^ (w - 1)) ≤ x ∧ x < 2 ^ (w - 1) := by
  unfold wIntCast
  have hm : (0 : Int) < 2 ^ w := by positivity
  have hs : (2 : Int) ^ w = 2 * 2 ^ (w - 1) := two_pow_split hw
  constructor
  · intro h
    have h0 : (x + 2 ^ (w - 1)) % 2 ^ w = x + 2 ^ (w - 1) := by linarith
    have hnn : 0 ≤ (x + 2 ^ (w - 1)) % 2 ^ w := Int.emod_nonneg _ (by positivity)
    have hlt : (x + 2 ^ (w - 1)) % 2 ^ w < 2 ^ w := Int.emod_lt_of_pos _ hm
    constructor <;> linarith
  · rintro ⟨h1, h2⟩
    have h0 : (x + 2 ^ (w - 1)) % 2 ^ w = x + 2 ^ (w - 1) :=
      Int.emod_eq_of_lt (by linarith) (by linarith)
    rw [h0]
    ring

/-- Signed wrapping only depends on the argument modulo `2 ^ w`. -/
lemma wIntCast_congr (w : Nat) {x y : Int} (h : x % 2 ^ w = y % 2 ^ w) :
    wIntCast w x = wIntCast w y := by
  unfold wIntCast
  rw [Int.add_emod, h, ← Int.add_emod]

/-- Wrapping to 64 bits preserves residues modulo any narrower power of
two. -/
lemma wIntCast64_mod {w : Nat} (hw : w ≤ 64) (x : Int) :
    wIntCast 64 x % 2 ^ w = x % 2 ^ w := by
  unfold wIntCast
  have hdvd : (2 ^ w : Int) ∣ 2 ^ 64 := pow_dvd_pow 2 hw
  rw [show (64 : Nat) - 1 = 63 from rfl]
  rw [Int.sub_emod, Int.emod_emod_of_dvd _ hdvd, ← Int.sub_emod]
  norm_num

/-- Wrapping a 64-bit-wrapped value to `w ≤ 64` bits equals wrapping the
original value directly. -/
lemma wIntCast_wIntCast64 {w : Nat} (hw : w ≤ 64) (x : Int) :
    wIntCast w (wIntCast 64 x) = wIntCast w x :=
  wIntCast_congr w (wIntCast64_mod hw x)


/-!
## Claim C7
-/

/-- Claim C7: for every signed or unsigned integral type `T` that fits the
JSON library's native numeric width (width `w`, `1 ≤ w ≤ 64`) and every
tree `t`, `Validate<T>(t)` is true iff `t`'s kind matches the required
numeric kind per the `MatchType` widening rules and the stored native
number round-trips through `T` without loss of precision (converting it to
`T` and back reproduces it exactly); in particular a float-kind node is
rejected for an integer type. -/
theorem claim_C7 (w : Nat) (hw2 : w ≤ 64) :
    (∀ t : Json,
        signedIntValidate w t = true ↔
          MatchType .intNum t.kind = true ∧
            wIntCast w (getInternalSigned t) = getInternalSigned t)
    ∧ (∀ t : Json,
        unsignedIntValidate w t = true ↔
          MatchType .uintNum t.kind = true ∧
            getInternalUnsigned t % 2 ^ w = getInternalUnsigned t)
    ∧ (∀ t : Json, t.kind = .floatNum →
        signedIntValidate w t = false ∧ unsignedIntValidate w t = false) := by
  refine ⟨fun t => ?_, fun t => ?_, fun t ht => ?_⟩
  · cases t with
    | intNum i =>
        simp [signedIntValidate, MatchType, Json.kind, getInternalSigned,
          signedIntDeserialise]
        exact eq_comm
    | uintNum u =>
        simp only [signedIntValidate, MatchType, Json.kind, getInternalSigned,
          signedIntDeserialise]
        rw [wIntCast_wIntCast64 hw2]
        simp
        exact eq_comm
    | _ =>
        simp [signedIntValidate, MatchType, Json.kind]
  · cases t with
    | uintNum u =>
        simp [unsignedIntValidate, MatchType, Json.kind, getInternalUnsigned,
          unsignedIntDeserialise]
        exact eq_comm
    | _ =>
        simp [unsignedIntValidate, MatchType, Json.kind]
  · cases t <;> simp_all [signedIntValidate, unsignedIntValidate, MatchType,
      Json.kind]

/-- Witness for C7: the width-8 (`int8_t`) instance applied to the
integer-kind node holding 300, which is rejected exactly because 300 does
not round-trip through 8 bits. -/
theorem claim_C7_witness :
    (signedIntValidate 8 (Json.intNum 300) = true ↔
        MatchType .intNum (Json.intNum 300).kind = true ∧
          wIntCast 8 (getInternalSigned (Json.intNum 300)) =
            getInternalSigned (Json.intNum 300))
    ∧ signedIntValidate 8 (Json.intNum 300) = false
    ∧ signedIntValidate 8 (Json.intNum 117) = true :=
  ⟨(claim_C7 8 (by decide)).1 (Json.intNum 300), by decide, by decide⟩


/-!
## Claim C1
-/

/-- Claim C1 (code bug witness): for the `ClassHelper`-configured aggregate
`classCfgC1` (one registered `int32_t` variable under key `"param0"`), the
empty object passes `Validate` — the validator only inspects keys that are
present — yet the checked `esd::Deserialise` entry point does not return a
value: `Implementation::Deserialise` calls `json::at("param0")` on the
missing key and the `json::out_of_range` exception propagates, contradicting
the documented contract that `Validate == true` implies deserialisation
succeeds and that the checked entry point is empty iff `Validate` is
false. -/
theorem claim_C1 :
    classValidate classCfgC1 (Json.obj []) = true
    ∧ esdDeserialiseChecked (classValidate classCfgC1)
        (classDeserialise classCfgC1) (Json.obj [])
        = .error "json out_of_range at key param0" :=
  ⟨rfl, rfl⟩

/-!
## Claim C10
-/

/-- Claim C10 (code bug witness): `DeserialiseInPlace` on a valid tree with
a factory that returns a non-null result invokes the factory *twice* — the
source re-invokes it after the null check and discards the first instance —
not exactly once as claimed (the earlier revision,
`src/EasySerDesClassHelper.h` line 176, invokes it once). -/
theorem claim_C10 :
    (deserialiseInPlace classCfgEmpty (fun _ => some 7) (Json.obj [])).2 = 2
    ∧ (deserialiseInPlace classCfgEmpty (fun _ => some 7) (Json.obj [])).1
        = .ok (some 7) :=
  ⟨rfl, rfl⟩

/-!
## Claim C5
-/

/-- Counterexample to claim C5: the absent sentinel *does* coincide with
the encoding of a present value — the inner `std::string` value
`"std::nullopt"` serialises to exactly the sentinel node, and decoding the
round-tripped present optional yields the absent optional. -/
theorem claim_C5_counterexample :
    optionSerialise stringCodec (some "std::nullopt") = Json.str optNullString
    ∧ optionDeserialise stringCodec
        (optionSerialise stringCodec (some "std::nullopt")) = none :=
  ⟨rfl, rfl⟩


/-- Characterisation of the json-against-string-node comparison. -/
lemma Json.eqStr_iff (t : Json) (s : String) : t.eqStr s = true ↔ t = .str s := by
  cases t <;> simp [Json.eqStr]

/-- Claim C5 (amended): the optional codec distinguishes present from
absent for every inner value whose encoding differs from the sentinel
string node `"std::nullopt"` — in that case a present value round-trips to
the same present value (given the inner codec round-trips it), and the
encoding of `std::nullopt` always decodes to the absent optional — but the
sentinel *can* coincide with a present value's encoding (see the
counterexample), in which case the present value decodes as absent. -/
theorem claim_C5_amended :
    (∀ (V : Type) (c : Codec V) (v : V),
        c.deserialise (c.serialise v) = v →
        c.serialise v ≠ Json.str optNullString →
        optionDeserialise c (optionSerialise c (some v)) = some v)
    ∧ (∀ (V : Type) (c : Codec V),
        optionDeserialise c (optionSerialise c none) = none) := by
  constructor
  · intro V c v hrt hne
    have hfalse : (c.serialise v).eqStr optNullString = false := by
      cases h : (c.serialise v).eqStr optNullString with
      | true => exact absurd ((Json.eqStr_iff _ _).mp h) hne
      | false => rfl
    simp [optionDeserialise, optionSerialise, hfalse, hrt]
  · intro V c
    rfl

/-- Witness for C5 (amended): the inner string value `"FooBar"` (whose
encoding is not the sentinel) round-trips as a present optional. -/
theorem claim_C5_witness :
    optionDeserialise stringCodec (optionSerialise stringCodec (some "FooBar"))
      = some "FooBar" :=
  claim_C5_amended.1 String stringCodec "FooBar" rfl
    (by intro h; injection h with h2; simp [optNullString] at h2)

/-!
## Claim C2
-/

/-- Counterexample to claim C2: for the supported type
`std::optional<std::string>` and the value holding `"std::nullopt"`, the
checked deserialisation of the serialised value succeeds but produces the
*absent* optional, not a value equal to the original. -/
theorem claim_C2_counterexample :
    esdDeserialise (optionCodec stringCodec)
        ((optionCodec stringCodec).serialise (some "std::nullopt"))
      = some none
    ∧ some (none : Option String) ≠ some (some "std::nullopt") :=
  ⟨rfl, by decide⟩


/-- Evaluation of `hexDigitVal` on the serialiser's digit alphabet. -/
lemma hexDigitVal_digitChar : ∀ n : Fin 16,
    hexDigitVal (Nat.digitChar n.val) = some n.val := by decide

/-- The serialiser's digit alphabet is lowercase hex. -/
lemma isLowerHexDigit_digitChar : ∀ n : Fin 16,
    isLowerHexDigit (Nat.digitChar n.val) = true := by decide

/-- The exact character content of a serialised byte. -/
lemma byteSerialise_data (b : Fin 256) :
    byteSerialise b
      = Json.str ⟨['0', 'x', Nat.digitChar (b.val / 16), Nat.digitChar (b.val % 16)]⟩ :=
  rfl

/-- Every serialised byte passes the byte validator. -/
lemma byteValidate_byteSerialise (b : Fin 256) :
    byteValidate (byteSerialise b) = true := rfl

/-- Unfolding of the byte parser on a `"0x"`-prefixed four-character
string. -/
lemma byteDeserialise_str (c1 c2 : Char) :
    byteDeserialise (Json.str ⟨['0', 'x', c1, c2]⟩) = parseHexChars [c1, c2] 0 % 256 :=
  rfl

/-- Parsing a serialised byte recovers the byte. -/
lemma byteDeserialise_byteSerialise (b : Fin 256) :
    byteDeserialise (byteSerialise b) = b.val := by
  have hlt := b.isLt
  have h1 : hexDigitVal (Nat.digitChar (b.val / 16)) = some (b.val / 16) :=
    hexDigitVal_digitChar ⟨b.val / 16, by omega⟩
  have h2 : hexDigitVal (Nat.digitChar (b.val % 16)) = some (b.val % 16) :=
    hexDigitVal_digitChar ⟨b.val % 16, by omega⟩
  rw [byteSerialise_data, byteDeserialise_str]
  simp only [parseHexChars, h1, h2]
  omega


/-- Claim C2 (amended): serialise-then-deserialise through the checked
entry point reproduces the original value for the embedded codecs — strings
always; bytes always; signed integers of width `1 ≤ w ≤ 64` whenever the
value is representable (which every value of the C++ type `T` is); the
absent optional always; and a present optional whenever the inner encoding
does not collide with the `"std::nullopt"` sentinel — the collision case
being the exception the counterexample exhibits. -/
theorem claim_C2_amended :
    (∀ s : String, esdDeserialise stringCodec (stringCodec.serialise s) = some s)
    ∧ (∀ b : Fin 256, esdDeserialise byteCodec (byteCodec.serialise b) = some b)
    ∧ (∀ w : Nat, 1 ≤ w → ∀ v : Int,
        -(2 ^ (w - 1)) ≤ v → v < 2 ^ (w - 1) →
        esdDeserialise (signedIntCodec w) ((signedIntCodec w).serialise v) = some v)
    ∧ (∀ (V : Type) (c : Codec V),
        esdDeserialise (optionCodec c) ((optionCodec c).serialise none) = some none)
    ∧ (∀ (V : Type) (c : Codec V) (v : V),
        esdDeserialise c (c.serialise v) = some v →
        c.serialise v ≠ Json.str optNullString →
        esdDeserialise (optionCodec c) ((optionCodec c).serialise (some v))
          = some (some v)) := by
  refine ⟨fun s => rfl, fun b => ?_, fun w hw v h1 h2 => ?_, fun V c => rfl,
    fun V c v hrt hne => ?_⟩
  · have hval := byteValidate_byteSerialise b
    have hdes := byteDeserialise_byteSerialise b
    simp only [esdDeserialise, byteCodec, hval, if_true]
    congr 1
    apply Fin.ext
    simp [hdes]
  · have hc : wIntCast w v = v := (wIntCast_eq_self_iff hw v).mpr ⟨h1, h2⟩
    simp [esdDeserialise, signedIntCodec, signedIntValidate, signedIntSerialise,
      signedIntDeserialise, MatchType, Json.kind, getInternalSigned, hc]
  · have hv : c.validate (c.serialise v) = true := by
      by_contra hv
      rw [esdDeserialise, if_neg] at hrt
      · exact Option.noConfusion hrt
      · simpa using hv
    have hd : c.deserialise (c.serialise v) = v := by
      rw [esdDeserialise, if_pos (by simpa using hv)] at hrt
      exact Option.some.inj hrt
    have hfalse : (c.serialise v).eqStr optNullString = false := by
      cases h : (c.serialise v).eqStr optNullString with
      | true => exact absurd ((Json.eqStr_iff _ _).mp h) hne
      | false => rfl
    simp [esdDeserialise, optionCodec, optionValidate, optionSerialise,
      optionDeserialise, hfalse, hv, hd]

/-- Witness for C2 (amended): concrete round trips — the spec's own
`int32 = -437218` scenario, a string, a byte, and a present optional
string. -/
theorem claim_C2_witness :
    esdDeserialise stringCodec (stringCodec.serialise "FooBar") = some "FooBar"
    ∧ esdDeserialise byteCodec (byteCodec.serialise ⟨42, by omega⟩)
        = some ⟨42, by omega⟩
    ∧ esdDeserialise (signedIntCodec 32) ((signedIntCodec 32).serialise (-437218))
        = some (-437218)
    ∧ esdDeserialise (optionCodec stringCodec)
        ((optionCodec stringCodec).serialise (some "Hi")) = some (some "Hi") :=
  ⟨claim_C2_amended.1 "FooBar",
   claim_C2_amended.2.1 ⟨42, by omega⟩,
   claim_C2_amended.2.2.1 32 (by omega) (-437218) (by decide) (by decide),
   claim_C2_amended.2.2.2.2 String stringCodec "Hi" (claim_C2_amended.1 "Hi")
     (by intro h; injection h with h2; simp [optNullString] at h2)⟩


/-!
## Claim C8
-/

/-- Counterexample to claim C8: `"0xzz"` has the right length and prefix
but its trailing characters are not hex digits, yet it *passes* the byte
validator — the source never inspects the two trailing characters. -/
theorem claim_C8_counterexample :
    byteValidate (Json.str "0xzz") = true ∧ hexDigitVal 'z' = none :=
  ⟨rfl, rfl⟩

/-- Claim C8 (amended): the byte validator accepts exactly the strings of
length 4 starting with `"0x"` — the two trailing characters are *not*
required to be hex digits — while `Serialise` always produces `"0x"`
followed by exactly two lowercase hex digits, which the validator
accepts. -/
theorem claim_C8_amended :
    (∀ t : Json, byteValidate t = true ↔
        ∃ s : String, t = Json.str s ∧ s.length = 4 ∧ strStartsWith s "0x" = true)
    ∧ (∀ b : Fin 256,
        byteSerialise b
          = Json.str ⟨['0', 'x', Nat.digitChar (b.val / 16), Nat.digitChar (b.val % 16)]⟩
        ∧ isLowerHexDigit (Nat.digitChar (b.val / 16)) = true
        ∧ isLowerHexDigit (Nat.digitChar (b.val % 16)) = true
        ∧ byteValidate (byteSerialise b) = true) := by
  constructor
  · intro t
    cases t with
    | str s => simp [byteValidate, Json.isStr, Json.getStr]
    | _ => simp [byteValidate, Json.isStr]
  · intro b
    have hlt := b.isLt
    exact ⟨byteSerialise_data b,
      isLowerHexDigit_digitChar ⟨b.val / 16, by omega⟩,
      isLowerHexDigit_digitChar ⟨b.val % 16, by omega⟩,
      byteValidate_byteSerialise b⟩

/-- Witness for C8 (amended): the validator characterisation evaluated at
the concrete serialised form of the byte `0x1f`. -/
theorem claim_C8_witness :
    byteValidate (Json.str "0x1f") = true :=
  (claim_C8_amended.1 (Json.str "0x1f")).mpr
    ⟨"0x1f", rfl, by decide, by decide⟩


/-!
## Claim C6
-/

/-- Claim C6: for any `ClassHelper` configuration, `Validate(t) = true`
only if `t` is an object, every key present in `t` names a registered
variable (field or parameter) whose individual validator accepts the
corresponding sub-value, and every registered joint validator accepts the
tree (each joint validator is the stored closure that decodes and checks
its own parameters). -/
theorem claim_C6 (T : Type) (cfg : ClassConfig T) (t : Json)
    (h : classValidate cfg t = true) :
    t.isObj = true
    ∧ (∀ kv ∈ t.entries,
        ∃ v, lookupVar cfg.vars kv.1 = some v ∧ v.validate kv.2 = true)
    ∧ (∀ jv ∈ cfg.jointValidators, jv t = true) := by
  cases t with
  | obj kvs =>
      simp only [classValidate, Bool.and_eq_true] at h
      obtain ⟨h1, h2⟩ := h
      refine ⟨rfl, ?_, ?_⟩
      · intro kv hkv
        have hall := List.all_eq_true.mp h1 kv hkv
        cases hlv : lookupVar cfg.vars kv.1 with
        | some v =>
            rw [hlv] at hall
            exact ⟨v, rfl, hall⟩
        | none =>
            rw [hlv] at hall
            exact absurd hall (by simp)
      · intro jv hjv
        exact List.all_eq_true.mp h2 jv hjv
  | _ => exact absurd h (by simp [classValidate])

/-- Witness for C6: the single-variable configuration `classCfgC1`
validated on an object holding a valid `int32` under the registered key. -/
theorem claim_C6_witness :
    (Json.obj [("param0", Json.intNum 5)]).isObj = true
    ∧ (∀ kv ∈ (Json.obj [("param0", Json.intNum 5)]).entries,
        ∃ v, lookupVar classCfgC1.vars kv.1 = some v ∧ v.validate kv.2 = true)
    ∧ (∀ jv ∈ classCfgC1.jointValidators,
        jv (Json.obj [("param0", Json.intNum 5)]) = true) :=
  claim_C6 Int classCfgC1 (Json.obj [("param0", Json.intNum 5)]) rfl


/-!
## Claim C3
-/

/-- Claim C3: shared-ownership session semantics.  With `addr`/`addrB` the
encode-time identities of two distinct live objects and `a0` the allocator
frontier (every address of a live object, in particular `addr` and `addrB`,
is below it): (1) decoding the same encoded shared handle twice in one
session yields two handles to a *single* new instance distinct from the
original; (2) decoding it in two independent sessions (fresh `Context`,
hence fresh cache) yields two distinct instances; (3) decoding handles that
originated from two *different* objects with *equal* encoded content never
merges them. -/
theorem claim_C3 (addr addrB a0 : Nat) (w : Json)
    (hA : addr < a0) (hAB : addr ≠ addrB) :
    (let t := sharedSerialise addr w
     let r1 := sharedDeserialise ⟨a0, []⟩ t
     let r2 := sharedDeserialise r1.2 t
     r1.1 = r2.1 ∧ r1.1 ≠ addr ∧ r2.1 ≠ addr)
    ∧ (let t := sharedSerialise addr w
       let r1 := sharedDeserialise ⟨a0, []⟩ t
       let r2 := sharedDeserialise ⟨r1.2.nextId, []⟩ t
       r1.1 ≠ r2.1)
    ∧ (let r1 := sharedDeserialise ⟨a0, []⟩ (sharedSerialise addr w)
       let r2 := sharedDeserialise r1.2 (sharedSerialise addrB w)
       r1.1 ≠ r2.1) := by
  refine ⟨?_, ?_, ?_⟩
  · simp only [sharedSerialise, sharedDeserialise, Json.lookup, List.find?]
    simp
    omega
  · simp only [sharedSerialise, sharedDeserialise, Json.lookup, List.find?]
    simp
  · simp only [sharedSerialise, sharedDeserialise, Json.lookup, List.find?]
    have hne : (addr == addrB) = false := by
      simp only [beq_eq_false_iff_ne, ne_eq]
      exact hAB
    simp [hne]


/-- Witness for C3: the session semantics evaluated at two concrete object
identities and a concrete encoded pointee. -/
theorem claim_C3_witness :
    (let t := sharedSerialise 1 (Json.str "v")
     let r1 := sharedDeserialise ⟨5, []⟩ t
     let r2 := sharedDeserialise r1.2 t
     r1.1 = r2.1 ∧ r1.1 ≠ 1 ∧ r2.1 ≠ 1)
    ∧ (let t := sharedSerialise 1 (Json.str "v")
       let r1 := sharedDeserialise ⟨5, []⟩ t
       let r2 := sharedDeserialise ⟨r1.2.nextId, []⟩ t
       r1.1 ≠ r2.1)
    ∧ (let r1 := sharedDeserialise ⟨5, []⟩ (sharedSerialise 1 (Json.str "v"))
       let r2 := sharedDeserialise r1.2 (sharedSerialise 2 (Json.str "v"))
       r1.1 ≠ r2.1) :=
  claim_C3 1 2 5 (Json.str "v") (by omega) (by omega)


/-!
## Claim C4: auxiliary lemmas on the variant codec
-/

/-- Looking up the `j`-th alternative's key in a serialised variant returns
that alternative's slot (keys being pairwise distinct). -/
lemma variantSerialise_lookup (i : Nat) (payload : Json) :
    ∀ (alts : List VariantAlt) (n j : Nat) (hj : j < alts.length),
      (alts.map VariantAlt.key).Nodup →
      (Json.obj ((alts.enumFrom n).map
          (fun p => (p.2.key, if p.1 == i then payload else .str varNullString)))).lookup
        ((alts.get ⟨j, hj⟩).key)
      = some (if n + j = i then payload else .str varNullString) := by
  intro alts
  induction alts with
  | nil => intro n j hj; simp at hj
  | cons a rest ih =>
      intro n j hj hnd
      rw [List.map_cons, List.nodup_cons] at hnd
      obtain ⟨hnotin, hndrest⟩ := hnd
      cases j with
      | zero =>
          simp [Json.lookup, List.enumFrom, List.find?]
      | succ j =>
          have hj' : j < rest.length := by
            simp only [List.length_cons] at hj
            omega
          have hkey : (a.key == (rest.get ⟨j, hj'⟩).key) = false := by
            simp only [beq_eq_false_iff_ne, ne_eq]
            intro hcontra
            exact hnotin (hcontra ▸ List.mem_map_of_mem VariantAlt.key
              (List.get_mem rest j hj'))
          have htail := ih (n + 1) j hj' hndrest
          simp only [List.enumFrom, List.map_cons, Json.lookup, List.find?,
            List.get, hkey] at htail ⊢
          rw [show n + 1 + j = n + (j + 1) from by omega] at htail
          exact htail

/-- Restatement of the lookup lemma on the folded serialiser. -/
lemma variantSerialise_lookup0 (alts : List VariantAlt) (i : Nat) (payload : Json)
    (j : Nat) (hj : j < alts.length) (hnd : (alts.map VariantAlt.key).Nodup) :
    (variantSerialise alts i payload).lookup ((alts.get ⟨j, hj⟩).key)
      = some (if j = i then payload else .str varNullString) := by
  have h := variantSerialise_lookup i payload alts 0 j hj hnd
  rw [Nat.zero_add] at h
  exact h

/-- Folding the variant decoder over alternatives whose slots hold the
payload exactly at index `i` and the absent marker everywhere else: the
accumulator is overwritten exactly at `i`. -/
lemma variantDeserialise_foldAux (t : Json) (i : Nat) (payload : Json)
    (hp : payload.eqStr varNullString = false) :
    ∀ (alts : List VariantAlt) (n : Nat) (acc : Nat × Option Json),
      (∀ (j : Nat) (hj : j < alts.length),
          t.lookup ((alts.get ⟨j, hj⟩).key)
            = some (if n + j = i then payload else .str varNullString)) →
      ((alts.enumFrom n).foldl
          (fun acc p =>
            match t.lookup p.2.key with
            | some v => if v.eqStr varNullString then acc else (p.1, some v)
            | none => acc) acc)
        = if n ≤ i ∧ i < n + alts.length then (i, some payload) else acc := by
  intro alts
  induction alts with
  | nil =>
      intro n acc _
      rw [if_neg (by simp)]
      rfl
  | cons a rest ih =>
      intro n acc hlk
      have h0 := hlk 0 (by simp)
      simp only [List.get] at h0
      have hshift : ∀ (j : Nat) (hj : j < rest.length),
          t.lookup ((rest.get ⟨j, hj⟩).key)
            = some (if n + 1 + j = i then payload else .str varNullString) := by
        intro j hj
        have h := hlk (j + 1) (by simp only [List.length_cons]; omega)
        simp only [List.get] at h
        rw [show n + (j + 1) = n + 1 + j from by omega] at h
        exact h
      rw [show List.enumFrom n (a :: rest) = (n, a) :: List.enumFrom (n + 1) rest
        from rfl, List.foldl_cons]
      by_cases hni : n = i
      · have hstep : (match t.lookup (n, a).2.key with
            | some v => if v.eqStr varNullString then acc else ((n, a).1, some v)
            | none => acc) = (n, some payload) := by
          rw [if_pos (show n + 0 = i by omega)] at h0
          show (match t.lookup a.key with
            | some v => if v.eqStr varNullString then acc else (n, some v)
            | none => acc) = (n, some payload)
          rw [h0]
          simp [hp]
        rw [hstep, ih (n + 1) (n, some payload) hshift]
        rw [if_neg (by omega), if_pos (by simp only [List.length_cons]; omega), hni]
      · have hstep : (match t.lookup (n, a).2.key with
            | some v => if v.eqStr varNullString then acc else ((n, a).1, some v)
            | none => acc) = acc := by
          rw [if_neg (show ¬ n + 0 = i by omega)] at h0
          show (match t.lookup a.key with
            | some v => if v.eqStr varNullString then acc else (n, some v)
            | none => acc) = acc
          rw [h0]
          simp [Json.eqStr]
        rw [hstep, ih (n + 1) acc hshift]
        by_cases hcond : n + 1 ≤ i ∧ i < n + 1 + rest.length
        · rw [if_pos hcond, if_pos (by simp only [List.length_cons]; omega)]
        · rw [if_neg hcond, if_neg (by simp only [List.length_cons]; omega)]

/-- Folding the variant decoder when every slot holds the absent marker:
the accumulator never changes. -/
lemma variantDeserialise_foldAux_marker (t : Json) :
    ∀ (alts : List VariantAlt) (n : Nat) (acc : Nat × Option Json),
      (∀ (j : Nat) (hj : j < alts.length),
          t.lookup ((alts.get ⟨j, hj⟩).key) = some (.str varNullString)) →
      ((alts.enumFrom n).foldl
          (fun acc p =>
            match t.lookup p.2.key with
            | some v => if v.eqStr varNullString then acc else (p.1, some v)
            | none => acc) acc)
        = acc := by
  intro alts
  induction alts with
  | nil => intro n acc _; rfl
  | cons a rest ih =>
      intro n acc hlk
      have h0 := hlk 0 (by simp)
      simp only [List.get] at h0
      rw [show List.enumFrom n (a :: rest) = (n, a) :: List.enumFrom (n + 1) rest
        from rfl, List.foldl_cons]
      have hstep : (match t.lookup (n, a).2.key with
          | some v => if v.eqStr varNullString then acc else ((n, a).1, some v)
          | none => acc) = acc := by
        show (match t.lookup a.key with
          | some v => if v.eqStr varNullString then acc else (n, some v)
          | none => acc) = acc
        rw [h0]
        simp [Json.eqStr]
      rw [hstep]
      exact ih (n + 1) acc (fun j hj => by
        have h := hlk (j + 1) (by simp only [List.length_cons]; omega)
        simpa [List.get] using h)

/-- A serialised variant always passes the variant validator, provided the
held slot's payload is the marker or validates. -/
lemma variantSerialise_validate (alts : List VariantAlt) (i : Nat) (payload : Json)
    (hnd : (alts.map VariantAlt.key).Nodup)
    (hslot : ∀ hi : i < alts.length,
        payload.eqStr varNullString = true ∨ (alts.get ⟨i, hi⟩).validate payload = true) :
    variantValidate alts (variantSerialise alts i payload) = true := by
  rw [variantValidate, Bool.and_eq_true, Bool.and_eq_true]
  refine ⟨⟨?_, ?_⟩, ?_⟩
  · rfl
  · simp [variantSerialise, Json.objSize]
  · rw [List.all_eq_true]
    intro a ha
    obtain ⟨⟨j, hj⟩, rfl⟩ := List.mem_iff_get.mp ha
    rw [variantSerialise_lookup0 alts i payload j hj hnd]
    by_cases hji : j = i
    · subst hji
      rw [if_pos rfl]
      rcases hslot hj with h | h
      · simp [h]
      · simp only [List.get_eq_getElem] at h
        simp [h]
    · rw [if_neg hji]
      simp [Json.eqStr]


/-!
## Claim C4: the theorems
-/

/-- Counterexample to claim C4: a variant tree in which *zero* alternatives
are present passes `Validate`, and one in which *both* alternatives are
present also passes `Validate` — the source checks each slot in isolation
(absent-marker-or-valid) and never enforces exclusivity. -/
theorem claim_C4_counterexample :
    variantValidate alts2ex treeC4zero = true
    ∧ variantValidate alts2ex treeC4both = true :=
  ⟨rfl, rfl⟩

/-- Claim C4 (amended): a tree with all `n` keys present, exactly one
holding a valid encoded value and the rest the absent marker, passes
`Validate` and decodes to the corresponding alternative; but exclusivity is
*not* validated — the all-absent tree also passes `Validate` (regardless of
the inner validators), decoding to the default-constructed first
alternative (and, dually, several present slots also pass, the last one
winning — see the counterexample). -/
theorem claim_C4_amended :
    (∀ (alts : List VariantAlt) (i : Nat) (hi : i < alts.length) (payload : Json),
        (alts.map VariantAlt.key).Nodup →
        payload.eqStr varNullString = false →
        (alts.get ⟨i, hi⟩).validate payload = true →
        variantValidate alts (variantSerialise alts i payload) = true
        ∧ variantDeserialise alts (variantSerialise alts i payload)
            = (i, some payload))
    ∧ (∀ alts : List VariantAlt,
        (alts.map VariantAlt.key).Nodup →
        variantValidate alts
            (variantSerialise alts alts.length (.str varNullString)) = true
        ∧ variantDeserialise alts
            (variantSerialise alts alts.length (.str varNullString))
            = (0, none)) := by
  constructor
  · intro alts i hi payload hnd hpne hval
    constructor
    · refine variantSerialise_validate alts i payload hnd (fun hi2 => Or.inr ?_)
      exact hval
    · have hfold := variantDeserialise_foldAux (variantSerialise alts i payload)
        i payload hpne alts 0 (0, none) (fun j hj => by
          rw [variantSerialise_lookup0 alts i payload j hj hnd, Nat.zero_add])
      have hres : variantDeserialise alts (variantSerialise alts i payload)
          = if 0 ≤ i ∧ i < 0 + alts.length then (i, some payload) else (0, none) :=
        hfold
      rw [hres, if_pos ⟨by omega, by omega⟩]
  · intro alts hnd
    constructor
    · exact variantSerialise_validate alts alts.length (.str varNullString) hnd
        (fun hi => absurd hi (lt_irrefl _))
    · have hfold := variantDeserialise_foldAux_marker
        (variantSerialise alts alts.length (.str varNullString)) alts 0 (0, none)
        (fun j hj => by
          rw [variantSerialise_lookup0 alts alts.length (.str varNullString) j hj hnd,
            ite_self])
      exact hfold

/-- Witness for C4 (amended): the spec's own scenario — a two-alternative
variant holding the string alternative `"FooBar"` — validates and decodes
to alternative 1 with that payload. -/
theorem claim_C4_witness :
    variantValidate alts2ex (variantSerialise alts2ex 1 (Json.str "FooBar")) = true
    ∧ variantDeserialise alts2ex (variantSerialise alts2ex 1 (Json.str "FooBar"))
        = (1, some (Json.str "FooBar")) :=
  claim_C4_amended.1 alts2ex 1 (by decide) (Json.str "FooBar") (by decide) rfl rfl


/-!
## Claim C9: auxiliary lemmas on key generation
-/

/-- Distinct decimal digits render to distinct characters. -/
lemma digitChar_inj10 {a b : Nat} (ha : a < 10) (hb : b < 10)
    (h : Nat.digitChar a = Nat.digitChar b) : a = b := by
  have hfin : ∀ x y : Fin 10, Nat.digitChar x.val = Nat.digitChar y.val → x = y := by
    decide
  exact congrArg Fin.val (hfin ⟨a, ha⟩ ⟨b, hb⟩ h)

/-- Rendering digit lists to characters is injective. -/
lemma map_digitChar_inj : ∀ (l1 l2 : List Nat),
    (∀ x ∈ l1, x < 10) → (∀ x ∈ l2, x < 10) →
    l1.map Nat.digitChar = l2.map Nat.digitChar → l1 = l2 := by
  intro l1
  induction l1 with
  | nil =>
      intro l2 _ _ h
      cases l2 with
      | nil => rfl
      | cons b bs => simp at h
  | cons a as ih =>
      intro l2 h1 h2 h
      cases l2 with
      | nil => simp at h
      | cons b bs =>
          simp only [List.map_cons, List.cons.injEq] at h
          obtain ⟨hab, htl⟩ := h
          rw [digitChar_inj10 (h1 a (by simp)) (h2 b (by simp)) hab,
            ih bs (fun x hx => h1 x (by simp [hx])) (fun x hx => h2 x (by simp [hx])) htl]

/-- A nonzero natural never renders to the string `"0"`. -/
lemma digits_render_ne_zero {n : Nat} (hn : n ≠ 0)
    (h : ("0" : String) = ⟨((Nat.digits 10 n).map Nat.digitChar).reverse⟩) :
    False := by
  have hd : (['0'] : List Char) = ((Nat.digits 10 n).map Nat.digitChar).reverse :=
    congrArg String.data h
  have h2 : (Nat.digits 10 n).map Nat.digitChar = ['0'] := by
    have := congrArg List.reverse hd
    simpa using this.symm
  cases hdig : Nat.digits 10 n with
  | nil => rw [hdig] at h2; simp at h2
  | cons d ds =>
      rw [hdig] at h2
      simp only [List.map_cons, List.cons.injEq] at h2
      obtain ⟨hd0, hds⟩ := h2
      have hddlt : d < 10 :=
        Nat.digits_lt_base (by norm_num) (hdig ▸ List.mem_cons_self d ds)
      have hdz : d = 0 := digitChar_inj10 hddlt (by norm_num) hd0
      have hofd := Nat.ofDigits_digits 10 n
      rw [hdig, List.map_eq_nil_iff.mp hds, hdz] at hofd
      simp [Nat.ofDigits] at hofd
      exact hn hofd.symm

/-- Decimal rendering of naturals (the model of `std::to_string`) is
injective. -/
lemma natRepr_inj : Function.Injective natRepr := by
  intro m n h
  unfold natRepr at h
  by_cases hm : m = 0 <;> by_cases hn : n = 0
  · exact hm.trans hn.symm
  · exfalso
    rw [if_pos hm, if_neg hn] at h
    exact digits_render_ne_zero hn h
  · exfalso
    rw [if_neg hm, if_pos hn] at h
    exact digits_render_ne_zero hm h.symm
  · rw [if_neg hm, if_neg hn] at h
    have hd : ((Nat.digits 10 m).map Nat.digitChar).reverse
        = ((Nat.digits 10 n).map Nat.digitChar).reverse := congrArg String.data h
    have h2 := congrArg List.reverse hd
    simp only [List.reverse_reverse] at h2
    have h3 := map_digitChar_inj _ _
      (fun x hx => Nat.digits_lt_base (by norm_num) hx)
      (fun x hx => Nat.digits_lt_base (by norm_num) hx) h2
    have h4 := congrArg (Nat.ofDigits 10) h3
    have h5 := Nat.ofDigits_digits 10 m
    have h6 := Nat.ofDigits_digits 10 n
    omega

/-- Appending to a fixed string on the left is injective. -/
lemma strAppend_left_cancel {p a b : String} (h : p ++ a = p ++ b) : a = b := by
  have hd : p.data ++ a.data = p.data ++ b.data := congrArg String.data h
  apply String.ext
  exact List.append_cancel_left hd

/-- The key generated by `GenerateUniqueKey` is never an already-registered
key: among the first `keys.length + 1` candidates (pairwise distinct by
injectivity of the decimal rendering) at least one is free, and the source
loop returns the first free one. -/
lemma genUniqueKey_fresh (keys : List String) (pre : String) :
    genUniqueKey keys pre ∉ keys := by
  rw [genUniqueKey]
  cases hfind : (List.range (keys.length + 1)).find?
      (fun i => !(keys.contains (pre ++ natRepr i))) with
  | some i =>
      have hp := List.find?_some hfind
      simp at hp
      exact hp
  | none =>
      exfalso
      have hall : ∀ i, i < keys.length + 1 → (pre ++ natRepr i) ∈ keys := by
        intro i hi
        have h := List.find?_eq_none.mp hfind i (List.mem_range.mpr hi)
        simp at h
        exact h
      have hinj : Function.Injective
          (fun i : Fin (keys.length + 1) => pre ++ natRepr i.val) := by
        intro x y hxy
        exact Fin.ext (natRepr_inj (strAppend_left_cancel hxy))
      have hsub : Finset.image
            (fun i : Fin (keys.length + 1) => pre ++ natRepr i.val) Finset.univ
          ⊆ keys.toFinset := by
        intro s hs
        simp only [Finset.mem_image, Finset.mem_univ, true_and] at hs
        obtain ⟨x, rfl⟩ := hs
        exact List.mem_toFinset.mpr (hall x.val x.isLt)
      have hcard := Finset.card_le_card hsub
      rw [Finset.card_image_of_injective _ hinj, Finset.card_univ,
        Fintype.card_fin] at hcard
      have hle := keys.toFinset_card_le
      omega

/-!
## Claim C9
-/

/-- Claim C9: after any sequence of parameter-creation and
variable-registration calls, the registered string keys are pairwise
unique — every single registration inserts a key that is not yet
registered (an omitted label gets a generated `"param<n>"` key, a
colliding label is deduplicated by suffixing a counter, and a fresh label
is used as is), so no registration ever overwrites or aliases an earlier
one, and the whole key set stays duplicate-free. -/
theorem claim_C9 :
    (∀ (keys : List String) (label : Option String), registerKey keys label ∉ keys)
    ∧ (∀ ops : List (Option String), (registerAll ops).Nodup) := by
  have hfresh : ∀ (keys : List String) (label : Option String),
      registerKey keys label ∉ keys := by
    intro keys label
    cases label with
    | none => exact genUniqueKey_fresh keys "param"
    | some l =>
        rw [registerKey]
        by_cases hc : keys.contains l
        · rw [if_pos hc]
          exact genUniqueKey_fresh keys l
        · rw [if_neg hc]
          intro hmem
          exact hc (by simpa using hmem)
  refine ⟨hfresh, ?_⟩
  have haux : ∀ (ops : List (Option String)) (keys : List String),
      keys.Nodup → (ops.foldl registerStep keys).Nodup := by
    intro ops
    induction ops with
    | nil => intro keys h; exact h
    | cons op rest ih =>
        intro keys h
        rw [List.foldl_cons]
        apply ih
        rw [registerStep]
        refine List.nodup_append.mpr ⟨h, List.nodup_singleton _, ?_⟩
        intro x hx hx2
        rw [List.mem_singleton] at hx2
        subst hx2
        exact hfresh keys op hx
  intro ops
  exact haux ops [] List.nodup_nil

end EsdModel
